import Mathlib

/-!
# Verification of `rust-linked-list`

A shallow embedding of the two data structures of the repository:

* `src/two_lock_queue.rs` — a two-lock concurrent FIFO queue built from a
  singly linked chain of `Node`s with a permanent sentinel at the head, a
  raw (non-owning) tail pointer, and an atomic length counter.
* `src/doubly.rs` — a non-thread-safe doubly linked list.

Heap pointers are embedded as *depths*: a non-owning pointer into the chain
is modelled by the number of `next` steps that reach the pointed-to node
from the owning head.  This is faithful for the operations verified here,
all of which either keep node depths fixed or shift every depth uniformly
(queue `pop` removes the first node, so the modelled tail depth drops by
one while the pointer itself is untouched in the source).

Panics (`Option::unwrap` on `None`) and dereferences of a dangling locator
are modelled by an outer `Option`: `none` means the source operation would
panic or hit undefined behaviour.  Both are unreachable from the structure
invariants, which is proved below.
-/

namespace TwoLock

/-- `Node<T>` from `two_lock_queue.rs`: `data: Option<T>`,
`next: Option<Box<Node<T>>>`.  The `Box` chain is a finite inductive
structure, mirroring the single-ownership chain of the source. -/
inductive Node (T : Type) : Type where
  | mk (data : Option T) (next : Option (Node T)) : Node T

/-- Field accessor for `data`. -/
def Node.data {T : Type} : Node T → Option T
  | .mk d _ => d

/-- Field accessor for `next`. -/
def Node.next {T : Type} : Node T → Option (Node T)
  | .mk _ n => n

/-- `Node::new(data)`: a real node holding a value, with no successor. -/
def Node.new {T : Type} (data : T) : Node T := .mk (some data) none

/-- `Node::empty()`: the sentinel shape — no data, no successor. -/
def Node.empty {T : Type} : Node T := .mk none none

/-- The list of `data` slots along the chain, starting at this node. -/
def Node.toList {T : Type} : Node T → List (Option T)
  | .mk d none => [d]
  | .mk d (some n) => d :: n.toList

/-- Number of nodes in the chain starting at this node (always ≥ 1). -/
def chainLen {T : Type} (n : Node T) : Nat := n.toList.length

/-- Follow `next` exactly `k` times; `none` when the chain is too short
(the modelled pointer would be dangling). -/
def nodeAt {T : Type} : Node T → Nat → Option (Node T)
  | n, 0 => some n
  | n, k + 1 =>
    match n.next with
    | none => none
    | some m => nodeAt m k

/-- The pointer write `tail.as_mut().next = Some(new_node)` of `push`,
performed on the node `k` steps from the chain head.  Overwriting `next`
drops any previous suffix, exactly as the `Box` assignment does in the
source.  When the chain is shorter than `k` steps the locator is dangling
(unreachable from the queue invariant) and the chain is returned
unchanged. -/
def setNextAt {T : Type} : Node T → Nat → Node T → Node T
  | .mk d _, 0, newNode => .mk d (some newNode)
  | .mk d none, _ + 1, _ => .mk d none
  | .mk d (some m), k + 1, newNode => .mk d (some (setNextAt m k newNode))

/-- The number of nodes reachable from `head.next` onward, i.e. the real
(non-sentinel) nodes of a queue chain. -/
def lenFromNext {T : Type} (n : Node T) : Nat :=
  match n.next with
  | none => 0
  | some m => chainLen m

/-- `TwoLockQueue<T>`.  `head` owns the chain (the sentinel is its first
node); `tail` is the non-owning `NonNull<Node<T>>` locator, embedded as
the depth of the pointed-to node from `head`; `len` is the atomic
counter.  Locks serialize the operations, so the quiescent states are the
states of this structure. -/
structure TwoLockQueue (T : Type) where
  head : Node T
  tail : Nat
  len : Nat

/-- `TwoLockQueue::new()`: one sentinel node, `tail` pointing at it
(depth 0), counter 0. -/
def TwoLockQueue.new {T : Type} : TwoLockQueue T :=
  { head := Node.empty, tail := 0, len := 0 }

/-- `TwoLockQueue::push(val)`: link a fresh real node after the node the
tail locator designates, repoint the locator at the fresh node (one step
deeper), then increment the counter. -/
def TwoLockQueue.push {T : Type} (q : TwoLockQueue T) (val : T) : TwoLockQueue T :=
  { head := setNextAt q.head q.tail (Node.new val)
    tail := q.tail + 1
    len := q.len + 1 }

/-- `TwoLockQueue::pop()`.  Result `none` models a panic: the
`head.next.take().unwrap()` on an absent `next`.  Otherwise
`some (r, q')` is the returned `Option<T>` together with the new state:
the first real node is promoted to sentinel (its data is taken, so its
slot becomes `none`), the old sentinel is dropped, the tail locator is
one step closer to the new head, and the counter is decremented. -/
def TwoLockQueue.pop {T : Type} (q : TwoLockQueue T) :
    Option (Option T × TwoLockQueue T) :=
  if q.len = 0 then
    some (none, q)
  else
    match q.head.next with
    | none => none
    | some n =>
      some (n.data,
        { head := Node.mk none n.next, tail := q.tail - 1, len := q.len - 1 })

/-- `TwoLockQueue::len()`: a plain load of the counter. -/
def TwoLockQueue.length {T : Type} (q : TwoLockQueue T) : Nat := q.len

/-- The first half of `push`: the writes performed under the tail lock
(link the fresh node, repoint the locator), before the `fetch_add` on the
counter has executed.  This is the state another thread can observe
between `push`'s two steps. -/
def pushLinked {T : Type} (q : TwoLockQueue T) (val : T) : TwoLockQueue T :=
  { head := setNextAt q.head q.tail (Node.new val)
    tail := q.tail + 1
    len := q.len }

/-- The second half of `push`: the `fetch_add(1)` on the counter. -/
def pushIncr {T : Type} (q : TwoLockQueue T) : TwoLockQueue T :=
  { q with len := q.len + 1 }

/-- `push` is exactly its two halves in sequence. -/
theorem push_split {T : Type} (q : TwoLockQueue T) (v : T) :
    q.push v = pushIncr (pushLinked q v) := rfl

/-- Fold a list of values into the queue by successive pushes. -/
def pushAll {T : Type} (q : TwoLockQueue T) (vs : List T) : TwoLockQueue T :=
  List.foldl TwoLockQueue.push q vs

/-- Perform `n` pops in sequence, collecting the returned options;
`none` when some pop panics. -/
def popN {T : Type} : TwoLockQueue T → Nat → Option (List (Option T) × TwoLockQueue T)
  | q, 0 => some ([], q)
  | q, n + 1 =>
    match q.pop with
    | none => none
    | some (r, q') =>
      match popN q' n with
      | none => none
      | some (rs, q'') => some (r :: rs, q'')

/-- One client operation on the queue. -/
inductive Op (T : Type) : Type where
  | push (v : T) : Op T
  | pop : Op T

/-- Run a list of operations in sequence, also counting the pushes and the
successful (value-returning) pops; `none` when some pop panics. -/
def runCount {T : Type} : TwoLockQueue T → List (Op T) → Option (TwoLockQueue T × Nat × Nat)
  | q, [] => some (q, 0, 0)
  | q, Op.push v :: ops =>
    (runCount (q.push v) ops).map fun r => (r.1, r.2.1 + 1, r.2.2)
  | q, Op.pop :: ops =>
    match q.pop with
    | none => none
    | some (r, q') =>
      (runCount q' ops).map fun s =>
        (s.1, s.2.1, s.2.2 + (if r.isSome then 1 else 0))

/-- The chain of real nodes holding `v :: vs` in order. -/
def realChain {T : Type} : T → List T → Node T
  | v, [] => Node.new v
  | v, w :: ws => .mk (some v) (some (realChain w ws))

/-- The canonical quiescent queue state holding exactly the values `vs`:
a sentinel followed by the real chain of `vs`, the tail locator at the
last node, the counter at `vs.length`. -/
def stateOf {T : Type} (vs : List T) : TwoLockQueue T :=
  { head := .mk none (match vs with | [] => none | v :: ws => some (realChain v ws))
    tail := vs.length
    len := vs.length }

theorem stateOf_nil {T : Type} : stateOf ([] : List T) = TwoLockQueue.new := rfl

theorem realChain_toList {T : Type} (v : T) (vs : List T) :
    (realChain v vs).toList = (v :: vs).map some := by
  induction vs generalizing v with
  | nil => rfl
  | cons w ws ih => simp [realChain, Node.toList, ih]

theorem chainLen_realChain {T : Type} (v : T) (vs : List T) :
    chainLen (realChain v vs) = vs.length + 1 := by
  simp [chainLen, realChain_toList]

theorem setNextAt_realChain {T : Type} (v : T) (vs : List T) (w : T) :
    setNextAt (realChain v vs) vs.length (Node.new w) = realChain v (vs ++ [w]) := by
  induction vs generalizing v with
  | nil => rfl
  | cons u us ih => simp [realChain, setNextAt, ih]

theorem push_stateOf {T : Type} (vs : List T) (v : T) :
    (stateOf vs).push v = stateOf (vs ++ [v]) := by
  cases vs with
  | nil => rfl
  | cons w ws =>
    simp [stateOf, TwoLockQueue.push, setNextAt, setNextAt_realChain]

theorem pushAll_stateOf {T : Type} (vs ws : List T) :
    pushAll (stateOf ws) vs = stateOf (ws ++ vs) := by
  induction vs generalizing ws with
  | nil => simp [pushAll]
  | cons v vt ih =>
    have h1 : pushAll (stateOf ws) (v :: vt) = pushAll ((stateOf ws).push v) vt := rfl
    rw [h1, push_stateOf, ih]
    simp

theorem pop_stateOf_nil {T : Type} :
    (stateOf ([] : List T)).pop = some (none, stateOf []) := rfl

theorem pop_stateOf_cons {T : Type} (v : T) (vs : List T) :
    (stateOf (v :: vs)).pop = some (some v, stateOf vs) := by
  cases vs <;> rfl

theorem popN_stateOf {T : Type} (vs : List T) :
    popN (stateOf vs) (vs.length + 1) = some (vs.map some ++ [none], stateOf []) := by
  induction vs with
  | nil => rfl
  | cons v vt ih =>
    have hstep : popN (stateOf (v :: vt)) (vt.length + 1 + 1) =
        match (stateOf (v :: vt)).pop with
        | none => none
        | some (r, q') =>
          match popN q' (vt.length + 1) with
          | none => none
          | some (rs, q'') => some (r :: rs, q'') := rfl
    simp only [List.length_cons, hstep, pop_stateOf_cons, ih, List.map_cons,
      List.cons_append]

/-- The quiescent states reachable through the queue's public interface:
`TwoLockQueue::new`, completed `push`es and completed, non-panicking
`pop`s.  The struct's fields are private in the source, so these are all
the states client code can ever observe with no operation in flight. -/
inductive Reachable {T : Type} : TwoLockQueue T → Prop where
  | new : Reachable TwoLockQueue.new
  | push (q : TwoLockQueue T) (v : T) :
      Reachable q → Reachable (q.push v)
  | pop (q : TwoLockQueue T) (r : Option T) (q' : TwoLockQueue T) :
      Reachable q → q.pop = some (r, q') → Reachable q'

/-- Every reachable quiescent state is a canonical state: a sentinel, the
real chain of the currently stored values, the tail locator on the last
node, the counter at the number of stored values. -/
theorem reachable_stateOf {T : Type} (q : TwoLockQueue T) (h : Reachable q) :
    ∃ vs, q = stateOf vs := by
  induction h with
  | new => exact ⟨[], rfl⟩
  | push q v _ ih =>
    obtain ⟨vs, rfl⟩ := ih
    exact ⟨vs ++ [v], push_stateOf vs v⟩
  | pop q r q' _ hpop ih =>
    obtain ⟨vs, rfl⟩ := ih
    cases vs with
    | nil =>
      rw [pop_stateOf_nil] at hpop
      simp only [Option.some_inj, Prod.mk.injEq] at hpop
      exact ⟨[], hpop.2.symm⟩
    | cons v vt =>
      rw [pop_stateOf_cons] at hpop
      simp only [Option.some_inj, Prod.mk.injEq] at hpop
      exact ⟨vt, hpop.2.symm⟩

theorem lenFromNext_stateOf {T : Type} (vs : List T) :
    lenFromNext (stateOf vs).head = vs.length := by
  cases vs with
  | nil => rfl
  | cons v vt => simp [stateOf, lenFromNext, Node.next, chainLen_realChain]

theorem toList_stateOf {T : Type} (vs : List T) :
    (stateOf vs).head.toList = none :: vs.map some := by
  cases vs with
  | nil => rfl
  | cons v vt => simp [stateOf, Node.toList, realChain_toList]

theorem nodeAt_realChain_last {T : Type} (v : T) (vs : List T) :
    ∃ n, nodeAt (realChain v vs) vs.length = some n ∧ n.next = none := by
  induction vs generalizing v with
  | nil => exact ⟨Node.new v, rfl, rfl⟩
  | cons w ws ih =>
    obtain ⟨n, h1, h2⟩ := ih w
    exact ⟨n, by simpa [realChain, nodeAt, Node.next] using h1, h2⟩

theorem nodeAt_tail_stateOf {T : Type} (vs : List T) :
    ∃ n, nodeAt (stateOf vs).head (stateOf vs).tail = some n ∧ n.next = none := by
  cases vs with
  | nil => exact ⟨Node.empty, rfl, rfl⟩
  | cons v vt =>
    obtain ⟨n, h1, h2⟩ := nodeAt_realChain_last v vt
    refine ⟨n, ?_, h2⟩
    simpa [stateOf, nodeAt, Node.next] using h1

theorem runCount_stateOf {T : Type} (ops : List (Op T)) (vs : List T) :
    ∃ ws pu po, runCount (stateOf vs) ops = some (stateOf ws, pu, po) ∧
      ws.length + po = vs.length + pu := by
  induction ops generalizing vs with
  | nil => exact ⟨vs, 0, 0, rfl, rfl⟩
  | cons op ops ih =>
    cases op with
    | push v =>
      obtain ⟨ws, pu, po, h1, h2⟩ := ih (vs ++ [v])
      refine ⟨ws, pu + 1, po, ?_, ?_⟩
      · show (runCount ((stateOf vs).push v) ops).map
            (fun r => (r.1, r.2.1 + 1, r.2.2)) = _
        rw [push_stateOf, h1]
        rfl
      · simp only [List.length_append, List.length_cons, List.length_nil] at h2
        omega
    | pop =>
      cases vs with
      | nil =>
        obtain ⟨ws, pu, po, h1, h2⟩ := ih []
        refine ⟨ws, pu, po, ?_, ?_⟩
        · show (match (stateOf ([] : List T)).pop with
            | none => none
            | some (r, q') =>
              (runCount q' ops).map fun (s : TwoLockQueue T × Nat × Nat) =>
                (s.1, s.2.1, s.2.2 + (if r.isSome then 1 else 0))) = _
          rw [pop_stateOf_nil]
          simp only [h1, Option.map_some]
          rfl
        · simpa using h2
      | cons v vt =>
        obtain ⟨ws, pu, po, h1, h2⟩ := ih vt
        refine ⟨ws, pu, po + 1, ?_, ?_⟩
        · show (match (stateOf (v :: vt)).pop with
            | none => none
            | some (r, q') =>
              (runCount q' ops).map fun (s : TwoLockQueue T × Nat × Nat) =>
                (s.1, s.2.1, s.2.2 + (if r.isSome then 1 else 0))) = _
          rw [pop_stateOf_cons]
          simp only [h1, Option.map_some]
          rfl
        · simp only [List.length_cons] at h2 ⊢
          omega

/-- C1: enqueues performed with no interleaved dequeues are returned by a
subsequent run of dequeues in exactly the order enqueued, and one further
dequeue then reports empty (`None`): popping `vs.length + 1` times after
pushing `vs` onto a fresh queue yields `vs` (each wrapped in `some`)
followed by `none`, and lands back on the fresh queue state. -/
theorem two_lock_fifo_order (T : Type) (vs : List T) :
    popN (pushAll TwoLockQueue.new vs) (vs.length + 1) =
      some (vs.map some ++ [none], TwoLockQueue.new) := by
  have h : pushAll (stateOf []) vs = stateOf ([] ++ vs) := pushAll_stateOf vs []
  rw [stateOf_nil] at h
  rw [h, List.nil_append, ← stateOf_nil, popN_stateOf]

/-- C2: in every reachable quiescent state, the atomic length counter
equals the number of nodes reachable from the sentinel's `next` link
onward, i.e. the number of real (non-sentinel) nodes of the chain; `new`,
`push` and `pop` preserve this since reachability is closed under them. -/
theorem two_lock_len_counts_real_nodes (T : Type) (q : TwoLockQueue T)
    (h : Reachable q) : q.length = lenFromNext q.head := by
  obtain ⟨vs, rfl⟩ := reachable_stateOf q h
  rw [lenFromNext_stateOf]
  rfl

/-- Witness for C2 at the concrete reachable state `new.push 1`. -/
theorem two_lock_len_counts_real_nodes_witness :
    Reachable ((TwoLockQueue.new : TwoLockQueue Nat).push 1) ∧
      ((TwoLockQueue.new : TwoLockQueue Nat).push 1).length =
        lenFromNext ((TwoLockQueue.new : TwoLockQueue Nat).push 1).head :=
  ⟨Reachable.push _ 1 Reachable.new,
    two_lock_len_counts_real_nodes Nat _ (Reachable.push _ 1 Reachable.new)⟩

/-- C3: in every reachable state exactly one node of the chain has an
absent `data` slot — and it is the first node, the one the head pointer
designates (the sentinel); construction, `push` and `pop` preserve this
since reachability is closed under them. -/
theorem two_lock_unique_sentinel (T : Type) (q : TwoLockQueue T)
    (h : Reachable q) :
    q.head.data = none ∧ q.head.toList.countP Option.isNone = 1 := by
  obtain ⟨vs, rfl⟩ := reachable_stateOf q h
  constructor
  · cases vs <;> rfl
  · rw [toList_stateOf]
    simp [List.countP_cons, List.countP_map, Function.comp_def]

/-- Witness for C3 at the concrete reachable state `new.push 1`. -/
theorem two_lock_unique_sentinel_witness :
    Reachable ((TwoLockQueue.new : TwoLockQueue Nat).push 1) ∧
      (((TwoLockQueue.new : TwoLockQueue Nat).push 1).head.data = none ∧
        ((TwoLockQueue.new : TwoLockQueue Nat).push 1).head.toList.countP
          Option.isNone = 1) :=
  ⟨Reachable.push _ 1 Reachable.new,
    two_lock_unique_sentinel Nat _ (Reachable.push _ 1 Reachable.new)⟩

/-- C4: in every reachable state the tail locator designates the node
reached from `head` by zero or more `next` steps whose own `next` is
absent — the last node of the chain; `push` and `pop` preserve this since
reachability is closed under them. -/
theorem two_lock_tail_is_last (T : Type) (q : TwoLockQueue T)
    (h : Reachable q) :
    ∃ n, nodeAt q.head q.tail = some n ∧ n.next = none := by
  obtain ⟨vs, rfl⟩ := reachable_stateOf q h
  exact nodeAt_tail_stateOf vs

/-- Witness for C4 at the concrete reachable state `new.push 1`. -/
theorem two_lock_tail_is_last_witness :
    Reachable ((TwoLockQueue.new : TwoLockQueue Nat).push 1) ∧
      ∃ n, nodeAt ((TwoLockQueue.new : TwoLockQueue Nat).push 1).head
          ((TwoLockQueue.new : TwoLockQueue Nat).push 1).tail = some n ∧
        n.next = none :=
  ⟨Reachable.push _ 1 Reachable.new,
    two_lock_tail_is_last Nat _ (Reachable.push _ 1 Reachable.new)⟩

/-- C5: from every reachable state, `push` always succeeds (it is a total
function with no failure branch) and its sole effect is to append the new
value at the end of the chain and raise the counter by exactly one; the
previously stored slots and their order are unchanged. -/
theorem two_lock_push_appends (T : Type) (q : TwoLockQueue T) (v : T)
    (h : Reachable q) :
    (q.push v).length = q.length + 1 ∧
      (q.push v).head.toList = q.head.toList ++ [some v] := by
  obtain ⟨vs, rfl⟩ := reachable_stateOf q h
  rw [push_stateOf]
  refine ⟨?_, ?_⟩
  · show (vs ++ [v]).length = vs.length + 1
    simp
  · rw [toList_stateOf, toList_stateOf]
    simp

/-- Witness for C5 at the concrete reachable state `new.push 1`. -/
theorem two_lock_push_appends_witness :
    Reachable ((TwoLockQueue.new : TwoLockQueue Nat).push 1) ∧
      ((((TwoLockQueue.new : TwoLockQueue Nat).push 1).push 2).length =
          ((TwoLockQueue.new : TwoLockQueue Nat).push 1).length + 1 ∧
        (((TwoLockQueue.new : TwoLockQueue Nat).push 1).push 2).head.toList =
          ((TwoLockQueue.new : TwoLockQueue Nat).push 1).head.toList
            ++ [some 2]) :=
  ⟨Reachable.push _ 1 Reachable.new,
    two_lock_push_appends Nat _ 2 (Reachable.push _ 1 Reachable.new)⟩

/-- C6: in every reachable state, whenever the counter check of `pop`
passes (the counter is non-zero) the sentinel's `next` is non-absent, so
the `head.next.take().unwrap()` cannot panic; consequently `pop` never
hits its panic case. -/
theorem two_lock_pop_unwrap_safe (T : Type) (q : TwoLockQueue T)
    (h : Reachable q) :
    (q.len ≠ 0 → q.head.next ≠ none) ∧ q.pop ≠ none := by
  obtain ⟨vs, rfl⟩ := reachable_stateOf q h
  cases vs with
  | nil =>
    refine ⟨fun hlen => absurd rfl hlen, ?_⟩
    rw [pop_stateOf_nil]
    exact Option.some_ne_none _
  | cons v vt =>
    constructor
    · intro _
      cases vt <;> exact fun hc => Option.noConfusion hc
    · rw [pop_stateOf_cons]
      exact Option.some_ne_none _

/-- Witness for C6 at the concrete reachable state `new.push 1`. -/
theorem two_lock_pop_unwrap_safe_witness :
    Reachable ((TwoLockQueue.new : TwoLockQueue Nat).push 1) ∧
      ((((TwoLockQueue.new : TwoLockQueue Nat).push 1).len ≠ 0 →
          ((TwoLockQueue.new : TwoLockQueue Nat).push 1).head.next ≠ none) ∧
        ((TwoLockQueue.new : TwoLockQueue Nat).push 1).pop ≠ none) :=
  ⟨Reachable.push _ 1 Reachable.new,
    two_lock_pop_unwrap_safe Nat _ (Reachable.push _ 1 Reachable.new)⟩

/-- C7: a freshly constructed queue is empty: the length accessor returns
0, `pop` returns the empty signal (`None`) and leaves the state unchanged,
and `head` and `tail` refer to the same single sentinel node — the tail
locator is at depth 0 (the head node itself) and the sentinel has no
successor and no data. -/
theorem two_lock_new_empty (T : Type) :
    (TwoLockQueue.new : TwoLockQueue T).length = 0 ∧
      (TwoLockQueue.new : TwoLockQueue T).pop =
        some (none, TwoLockQueue.new) ∧
      (TwoLockQueue.new : TwoLockQueue T).tail = 0 ∧
      (TwoLockQueue.new : TwoLockQueue T).head = Node.empty :=
  ⟨rfl, rfl, rfl, rfl⟩

/-- C8: running any finite sequence of operations from a fresh queue
completes without panic, and at quiescence the length accessor returns
exactly the number of pushes minus the number of successful
(value-returning) pops. -/
theorem two_lock_len_quiescent (T : Type) (ops : List (Op T)) :
    ∃ q pu po, runCount TwoLockQueue.new ops = some (q, pu, po) ∧
      po ≤ pu ∧ q.length = pu - po := by
  obtain ⟨ws, pu, po, h1, h2⟩ := runCount_stateOf ops []
  refine ⟨stateOf ws, pu, po, h1, ?_, ?_⟩
  · simp only [List.length_nil, Nat.zero_add] at h2
    omega
  · show ws.length = pu - po
    simp only [List.length_nil, Nat.zero_add] at h2
    omega

/-- C9: the fast-path emptiness decision of `pop` reads the counter, so at
the interleaving point inside a concurrent `push` — after the pushed node
has been linked under the tail lock but before the counter increment has
become visible — `pop` on an initially empty queue returns the empty
signal even though one real node is already reachable from the sentinel;
completing the increment from that very state yields exactly the state of
a finished `push`. -/
theorem two_lock_weak_empty_read :
    (pushLinked (TwoLockQueue.new : TwoLockQueue Nat) 1).pop =
        some (none, pushLinked TwoLockQueue.new 1) ∧
      lenFromNext (pushLinked (TwoLockQueue.new : TwoLockQueue Nat) 1).head = 1 ∧
      pushIncr (pushLinked (TwoLockQueue.new : TwoLockQueue Nat) 1) =
        TwoLockQueue.new.push 1 :=
  ⟨rfl, rfl, rfl⟩

end TwoLock

namespace Doubly

/-- `Node<T>` from `doubly.rs`: `val: T`, an owning
`next: Option<Box<Node<T>>>` and a non-owning
`prev: Option<NonNull<Node<T>>>`.  The `prev` locator is embedded as the
depth of the pointed-to node from the list head; this is stable under the
back-end operations verified here, which never change the depth of an
existing node. -/
inductive Node (T : Type) : Type where
  | mk (val : T) (next : Option (Node T)) (prev : Option Nat) : Node T

/-- Field accessor for `val`. -/
def Node.val {T : Type} : Node T → T
  | .mk v _ _ => v

/-- Field accessor for `next`. -/
def Node.next {T : Type} : Node T → Option (Node T)
  | .mk _ n _ => n

/-- Field accessor for `prev`. -/
def Node.prev {T : Type} : Node T → Option Nat
  | .mk _ _ p => p

/-- `Node::new(val)` (from `derive_new` with defaulted fields): a node
holding a value with `next` and `prev` absent. -/
def Node.new {T : Type} (val : T) : Node T := .mk val none none

/-- The values along the owned chain, front to back. -/
def Node.toList {T : Type} : Node T → List T
  | .mk v none _ => [v]
  | .mk v (some n) _ => v :: n.toList

/-- Number of nodes of the owned chain starting here (always ≥ 1). -/
def chainLen {T : Type} (n : Node T) : Nat := n.toList.length

/-- Follow `next` exactly `k` times from an optional head; `none` when
the chain is too short (the modelled pointer would be dangling). -/
def nodeAt {T : Type} : Option (Node T) → Nat → Option (Node T)
  | none, _ => none
  | some n, 0 => some n
  | some n, k + 1 => nodeAt n.next k

/-- The pointer write `tail.as_mut().next = Some(new_box)` of
`push_back`, performed on the node `k` steps from the head.  When the
chain is shorter than `k` steps the locator is dangling (unreachable under
the list's ownership invariant) and the chain is returned unchanged. -/
def setNextAt {T : Type} : Node T → Nat → Node T → Node T
  | .mk v _ p, 0, newNode => .mk v (some newNode) p
  | .mk v none p, _ + 1, _ => .mk v none p
  | .mk v (some m) p, k + 1, newNode => .mk v (some (setNextAt m k newNode)) p

/-- `prev.as_mut().next.take().unwrap()` of `pop_back`, at depth `k` from
the head: detach and return the owned suffix hanging after the node at
depth `k`, together with the truncated chain.  `none` when that node has
no suffix (the `unwrap` would panic) or the locator is dangling. -/
def takeNextAt {T : Type} : Node T → Nat → Option (Node T × Node T)
  | .mk _ none _, 0 => none
  | .mk v (some m) p, 0 => some (m, .mk v none p)
  | .mk _ none _, _ + 1 => none
  | .mk v (some m) p, k + 1 =>
    (takeNextAt m k).map fun r => (r.1, .mk v (some r.2) p)

/-- `DoublyLinkList<T>`: an owning `head: Option<Box<Node<T>>>`, a
non-owning `tail: Option<NonNull<Node<T>>>` embedded as the depth of the
last node from the head, and the stored `len`. -/
structure DoublyLinkList (T : Type) where
  head : Option (Node T)
  tail : Option Nat
  len : Nat

/-- `DoublyLinkList::new()` (from `derive_new` with defaulted fields):
empty head, empty tail locator, length 0. -/
def DoublyLinkList.new {T : Type} : DoublyLinkList T :=
  { head := none, tail := none, len := 0 }

/-- `DoublyLinkList::len()`: returns the stored length. -/
def DoublyLinkList.length {T : Type} (l : DoublyLinkList T) : Nat := l.len

/-- `DoublyLinkList::push_back(val)`: build a fresh node whose `prev` is a
copy of the current tail locator; if a tail exists, hang the fresh node
off it (one step deeper than the old tail), otherwise the fresh node
becomes the head (depth 0); repoint the tail locator at the fresh node
and bump the length. -/
def DoublyLinkList.push_back {T : Type} (l : DoublyLinkList T) (val : T) :
    DoublyLinkList T :=
  let new_box : Node T := .mk val none l.tail
  match l.tail with
  | some t =>
    { head := l.head.map fun h => setNextAt h t new_box
      tail := some (t + 1)
      len := l.len + 1 }
  | none =>
    { head := some new_box, tail := some 0, len := l.len + 1 }

/-- `DoublyLinkList::pop_back()`.  Result `none` models a panic or a
dangling dereference; otherwise `some (r, l')` is the returned
`Option<T>` with the new state.  When a tail exists: read the tail node's
`prev`; if present, take that node's `next` (the suffix owning the tail
node), return its value and move the tail locator to `prev`; otherwise
take the whole head chain, return its value and clear the tail locator.
The length is decremented in both branches. -/
def DoublyLinkList.pop_back {T : Type} (l : DoublyLinkList T) :
    Option (Option T × DoublyLinkList T) :=
  match l.tail with
  | none => some (none, l)
  | some t =>
    match nodeAt l.head t with
    | none => none
    | some tailNode =>
      match tailNode.prev with
      | some p =>
        match l.head with
        | none => none
        | some h =>
          match takeNextAt h p with
          | none => none
          | some (node, h') =>
            some (some node.val,
              { head := some h', tail := some p, len := l.len - 1 })
      | none =>
        match l.head with
        | none => none
        | some h =>
          some (some h.val, { head := none, tail := none, len := l.len - 1 })

/-- The locator/length well-formedness the source's private fields
maintain: the tail locator is the depth of the last node of the owned
chain (absent exactly when the chain is) and `len` is the chain's node
count. -/
def WF {T : Type} (l : DoublyLinkList T) : Prop :=
  match l.head with
  | none => l.tail = none ∧ l.len = 0
  | some h => l.tail = some (chainLen h - 1) ∧ l.len = chainLen h

/-- Appending one node at the end of an owned chain. -/
def appendNode {T : Type} : Node T → Node T → Node T
  | .mk v none p, x => .mk v (some x) p
  | .mk v (some m) p, x => .mk v (some (appendNode m x)) p

theorem chainLen_pos {T : Type} (n : Node T) : 0 < chainLen n := by
  cases n with
  | mk v nx p => cases nx <;> simp [chainLen, Node.toList]

theorem chainLen_cons {T : Type} (v : T) (m : Node T) (p : Option Nat) :
    chainLen (Node.mk v (some m) p) = chainLen m + 1 := by
  simp [chainLen, Node.toList]

/-- Writing `next` at the depth of the last node appends. -/
theorem setNextAt_last {T : Type} : (h x : Node T) →
    setNextAt h (chainLen h - 1) x = appendNode h x
  | .mk v none p, x => rfl
  | .mk v (some m) p, x => by
    have ihm := setNextAt_last m x
    rw [chainLen_cons, Nat.add_sub_cancel,
      ← Nat.succ_pred_eq_of_pos (chainLen_pos m)]
    show Node.mk v (some (setNextAt m (chainLen m - 1) x)) p =
      Node.mk v (some (appendNode m x)) p
    rw [ihm]

/-- The appended node sits at depth `chainLen h` of the grown chain. -/
theorem nodeAt_appendNode {T : Type} : (h x : Node T) →
    nodeAt (some (appendNode h x)) (chainLen h) = some x
  | .mk v none p, x => rfl
  | .mk v (some m) p, x => by
    have ihm := nodeAt_appendNode m x
    rw [chainLen_cons]
    exact ihm

/-- Taking the suffix after the old last node undoes the append. -/
theorem takeNextAt_appendNode {T : Type} : (h x : Node T) →
    takeNextAt (appendNode h x) (chainLen h - 1) = some (x, h)
  | .mk v none p, x => rfl
  | .mk v (some m) p, x => by
    have ihm := takeNextAt_appendNode m x
    rw [chainLen_cons, Nat.add_sub_cancel,
      ← Nat.succ_pred_eq_of_pos (chainLen_pos m)]
    show (takeNextAt (appendNode m x) (chainLen m - 1)).map
        (fun r => (r.1, Node.mk v (some r.2) p)) = some (x, Node.mk v (some m) p)
    rw [ihm]
    rfl

/-- C10: on any well-formed list, `push_back v` followed immediately by
`pop_back` returns `Some v` and restores the list exactly — same head
chain, same tail locator, same length. -/
theorem doubly_push_back_pop_back (T : Type) (l : DoublyLinkList T) (v : T)
    (h : WF l) : (l.push_back v).pop_back = some (some v, l) := by
  obtain ⟨hd, tl, ln⟩ := l
  cases hd with
  | none =>
    obtain ⟨ht, hl⟩ := h
    subst ht hl
    rfl
  | some hn =>
    obtain ⟨ht, hl⟩ := h
    subst ht hl
    show (DoublyLinkList.push_back
        ⟨some hn, some (chainLen hn - 1), chainLen hn⟩ v).pop_back = _
    have hpush : DoublyLinkList.push_back
        ⟨some hn, some (chainLen hn - 1), chainLen hn⟩ v =
        ⟨some (appendNode hn (Node.mk v none (some (chainLen hn - 1)))),
          some (chainLen hn - 1 + 1), chainLen hn + 1⟩ := by
      simp [DoublyLinkList.push_back, setNextAt_last]
    rw [hpush]
    have hdepth : chainLen hn - 1 + 1 = chainLen hn :=
      Nat.succ_pred_eq_of_pos (chainLen_pos hn)
    show DoublyLinkList.pop_back _ = _
    rw [DoublyLinkList.pop_back]
    simp only [hdepth, nodeAt_appendNode, Node.prev, takeNextAt_appendNode,
      Node.val]
    simp [Nat.add_sub_cancel]

/-- Witness for C10 at the concrete well-formed one-element list. -/
theorem doubly_push_back_pop_back_witness :
    WF ((DoublyLinkList.new : DoublyLinkList Nat).push_back 1) ∧
      (((DoublyLinkList.new : DoublyLinkList Nat).push_back 1).push_back 2).pop_back =
        some (some 2, (DoublyLinkList.new : DoublyLinkList Nat).push_back 1) :=
  ⟨⟨rfl, rfl⟩, doubly_push_back_pop_back Nat _ 2 ⟨rfl, rfl⟩⟩

end Doubly
